import Mathlib

/-!
Shallow embedding of the riskboard (ZeroHour) prioritization pipeline,
translated from `src/ai.ts` (fallbackRanking, prioritizeRisks) and
`parser.ts` (parseFindings).

Modelling conventions:
* JavaScript numbers that are only compared (exposure scores, line numbers,
  indices) are modelled as `Int`.
* `Array.prototype.sort` with comparator `(a, b) => b.exposureScore - a.exposureScore`
  is, per the ECMAScript specification, a stable in-place sort placing larger
  scores first.  The output of a stable sort is uniquely determined by the
  comparator and the input order, so it is modelled by a stable insertion
  sort (structurally recursive, hence executable by the kernel).  The
  in-place mutation of the caller's array is made explicit: functions that
  sort their argument return the final contents of that array alongside
  their result.
* The remote LLM calls are modelled by an oracle `Nat → BatchOutcome`
  giving, for each batch index, the outcome of that batch's request:
  a thrown error (network/auth/quota/malformed JSON), a response with
  missing content, or a successfully parsed JSON response.
* Thrown JavaScript errors that cross function boundaries are modelled
  with `Except`; the try/catch blocks of the source become matches on it.
-/

namespace Riskboard

/-- An enriched finding, as produced by the context enricher
(`EnrichedFinding` in `types.ts`): the parsed finding fields plus the
computed `exposureScore`. -/
structure EnrichedFinding where
  ruleId : String
  file : String
  line : Int
  message : String
  severity : String
  codeSnippet : Option String
  exposureScore : Int
deriving DecidableEq, Repr

/-- One prioritized risk (`RiskAnalysis` in `types.ts`).  `confidence` is a
string because the remote path copies whatever string the LLM response
contains.  `originalFinding` is optional because the remote path computes it
as `batch[risk.originalId] || batch[0]`, which is `undefined` for an empty
batch. -/
structure RiskAnalysis where
  title : String
  reason : String
  impact : String
  fix : String
  confidence : String
  originalFinding : Option EnrichedFinding
deriving DecidableEq, Repr

/-- The prioritizer's result (`AnalysisResult` in `types.ts`).  The source
returns `{ topRisks }` on the successful remote path (leaving `isFallback`
unset, which every reader treats as false) and `{ ...fallbackRanking(findings),
isFallback: true }` on the fallback paths; the unset field is modelled by the
default value `false`. -/
structure AnalysisResult where
  topRisks : List RiskAnalysis
  isFallback : Bool := false
deriving DecidableEq, Repr

/-- Stable descending insert: `f` goes after every strictly larger element
and before every element whose score is less than or equal to its own.
Helper for `sortByExposureDesc`. -/
def insertByExposure (f : EnrichedFinding) : List EnrichedFinding → List EnrichedFinding
  | [] => [f]
  | g :: gs =>
    if f.exposureScore < g.exposureScore then g :: insertByExposure f gs
    else f :: g :: gs

/-- `findings.sort((a, b) => b.exposureScore - a.exposureScore)`: the stable
descending sort by exposure score used at `ai.ts` lines 6 and 37.  Stable
insertion sort computes the same (unique) stable result as the ECMAScript
sort with this comparator. -/
def sortByExposureDesc : List EnrichedFinding → List EnrichedFinding
  | [] => []
  | f :: fs => insertByExposure f (sortByExposureDesc fs)

/-- The fixed text template applied to each of the top findings by
`fallbackRanking` (`ai.ts` lines 7-14). -/
def fallbackRisk (f : EnrichedFinding) : RiskAnalysis :=
  { title := "Potential " ++ f.message
    reason := "Detected by static analysis with high exposure score."
    impact := "Unknown business impact (run with AI API for details)."
    fix := "Review code snippet and apply best practices."
    confidence := "Medium"
    originalFinding := some f }

/-- `fallbackRanking` (`ai.ts` lines 5-17): sorts the caller's array in
place (the second component is the array's contents after the call), takes
the top 5 and applies the fixed template. -/
def fallbackRanking (findings : List EnrichedFinding) :
    AnalysisResult × List EnrichedFinding :=
  let sorted := sortByExposureDesc findings
  ({ topRisks := (sorted.take 5).map fallbackRisk }, sorted)

/-- One risk object of a parsed LLM batch response
(`{ title, reason, impact, fix, confidence, originalId }`). -/
structure RawRisk where
  title : String
  reason : String
  impact : String
  fix : String
  confidence : String
  originalId : Int
deriving DecidableEq, Repr

/-- A parsed JSON batch response.  The risk array may sit under the key
`risks` or the legacy key `topRisks`; an absent or null field is `none`. -/
structure LLMResponse where
  risks : Option (List RawRisk)
  topRisks : Option (List RawRisk)
deriving DecidableEq, Repr

/-- Outcome of one remote batch request, as seen by the inner try/catch of
`ai.ts` lines 84-103: the request or `JSON.parse` threw; the completion had
no content; or a JSON object was parsed. -/
inductive BatchOutcome where
  | failure
  | noContent
  | success (resp : LLMResponse)
deriving DecidableEq, Repr

/-- `parsed.risks || parsed.topRisks || []` (`ai.ts` line 96): the `risks`
key wins when present (even when it holds an empty array, which is truthy);
otherwise the legacy `topRisks` key; otherwise the empty list. -/
def extractRisks (resp : LLMResponse) : List RawRisk :=
  match resp.risks with
  | some l => l
  | none => resp.topRisks.getD []

/-- `batch[risk.originalId] || batch[0]` (`ai.ts` line 98): the element at
`originalId` when that is a valid index, else the batch's first element
(none when the batch is empty). -/
def lookupOriginal (batch : List EnrichedFinding) (id : Int) : Option EnrichedFinding :=
  if h : 0 ≤ id ∧ id.toNat < batch.length then some (batch.get ⟨id.toNat, h.2⟩)
  else batch.head?

/-- The body of one batch promise (`ai.ts` lines 84-103): a thrown error or
missing content yields the empty list; a parsed response yields its risks
with each `originalId` mapped back to a finding of the batch. -/
def processBatch (batch : List EnrichedFinding) (out : BatchOutcome) : List RiskAnalysis :=
  match out with
  | BatchOutcome.failure => []
  | BatchOutcome.noContent => []
  | BatchOutcome.success resp =>
    (extractRisks resp).map fun r =>
      { title := r.title, reason := r.reason, impact := r.impact, fix := r.fix
        confidence := r.confidence
        originalFinding := lookupOriginal batch r.originalId }

/-- The batching loop of `ai.ts` lines 40-43 (`BATCH_SIZE = 20`): slices of
20 in order.  The fuel argument bounds the loop iterations; the wrapper
`chunks20` passes the list's length, which always suffices since each
iteration consumes at least one element. -/
def chunks20Fuel : Nat → List EnrichedFinding → List (List EnrichedFinding)
  | _, [] => []
  | 0, x :: xs => [x :: xs]
  | Nat.succ fuel, x :: xs => (x :: xs).take 20 :: chunks20Fuel fuel ((x :: xs).drop 20)

/-- Partition into consecutive slices of 20 (`ai.ts` lines 40-43). -/
def chunks20 (l : List EnrichedFinding) : List (List EnrichedFinding) :=
  chunks20Fuel l.length l

/-- The environment read by `prioritizeRisks`: the `GROQ_API_KEY` value
(`none` models a falsy `process.env.GROQ_API_KEY`, i.e. unset or empty) and
the oracle giving each remote batch request's outcome. -/
structure Env where
  apiKey : Option String
  batchOutcome : Nat → BatchOutcome

/-- The per-batch result lists gathered by `Promise.all` (`ai.ts` lines
37-107): the findings are sorted descending by exposure score, the top 60
(`BATCH_SIZE * MAX_BATCHES`) are split into batches of 20, and each batch is
processed with its own outcome. -/
def batchRiskLists (findings : List EnrichedFinding) (oracle : Nat → BatchOutcome) :
    List (List RiskAnalysis) :=
  let sorted := sortByExposureDesc findings
  let batches := chunks20 (sorted.take 60)
  batches.enum.map fun p => processBatch p.2 (oracle p.1)

/-- The deduplication key of `ai.ts` lines 111-113: the pair of the risk's
title and the originating finding's file. -/
def riskKey (r : RiskAnalysis) : String × Option String :=
  (r.title, r.originalFinding.map fun f => f.file)

/-- Keep-first deduplication by `riskKey`; `seen` holds the keys of all
elements already processed. -/
def dedupByKeyAux (seen : List (String × Option String)) :
    List RiskAnalysis → List RiskAnalysis
  | [] => []
  | r :: rs =>
    if riskKey r ∈ seen then dedupByKeyAux seen rs
    else r :: dedupByKeyAux (riskKey r :: seen) rs

/-- `allRisks.filter((risk, index, self) => index === self.findIndex(t =>
t.title === risk.title && t.originalFinding.file === risk.originalFinding.file))`
(`ai.ts` lines 111-113): keep an element exactly when no earlier element has
the same (title, file) key. -/
def dedupByKey (l : List RiskAnalysis) : List RiskAnalysis :=
  dedupByKeyAux [] l

/-- The body of the outer try of `prioritizeRisks` (`ai.ts` lines 26-120):
sort (mutating the caller's array, returned as the second component), batch,
process, flatten, deduplicate; throw when no risks remain, otherwise return
the top 10 with the `isFallback` field left unset (false). -/
def remoteAttempt (findings : List EnrichedFinding) (oracle : Nat → BatchOutcome) :
    Except String (AnalysisResult × List EnrichedFinding) :=
  let sorted := sortByExposureDesc findings
  let allRisks := (batchRiskLists findings oracle).flatten
  let uniqueRisks := dedupByKey allRisks
  if uniqueRisks.length = 0 then Except.error "No risks identified by AI"
  else Except.ok ({ topRisks := uniqueRisks.take 10 }, sorted)

/-- `prioritizeRisks` (`ai.ts` lines 19-138).  With no API key it returns
the fallback ranking with `isFallback := true`.  Otherwise it runs the
remote attempt; any thrown error is caught and answered with the fallback
ranking (computed over the array as already mutated by the remote attempt's
in-place sort) with `isFallback := true`.  The second component is the
caller's array contents after the call. -/
def prioritizeRisks (findings : List EnrichedFinding) (env : Env) :
    AnalysisResult × List EnrichedFinding :=
  match env.apiKey with
  | none =>
    let p := fallbackRanking findings
    ({ p.1 with isFallback := true }, p.2)
  | some _ =>
    match remoteAttempt findings env.batchOutcome with
    | Except.ok res => res
    | Except.error _ =>
      let p := fallbackRanking (sortByExposureDesc findings)
      ({ p.1 with isFallback := true }, p.2)

/-- One entry of the scanner's `results` array, with the fields read by the
parser (`check_id`, `path`, `start.line`, `extra.message`, `extra.severity`,
`extra.lines`). -/
structure SemgrepResult where
  check_id : String
  path : String
  start_line : Int
  message : String
  severity : String
  lines : String
deriving DecidableEq, Repr

/-- The top-level `results` field as found in the parsed JSON: either an
actual array or a value of some other type. -/
inductive ResultsField where
  | array (l : List SemgrepResult)
  | nonArray
deriving DecidableEq, Repr

/-- The parsed scanner JSON object; `results := none` when the field is
absent. -/
structure SemgrepOutput where
  results : Option ResultsField
deriving DecidableEq, Repr

/-- What the parser finds at the given path: an unreadable file
(`fs.readFileSync` throws), invalid JSON (`JSON.parse` throws), or a parsed
JSON object. -/
inductive FileContent where
  | unreadable
  | invalidJson
  | json (v : SemgrepOutput)
deriving DecidableEq, Repr

/-- A parsed finding (`Finding` in `types.ts`). -/
structure Finding where
  ruleId : String
  file : String
  line : Int
  message : String
  severity : String
  codeSnippet : String
deriving DecidableEq, Repr

/-- The field mapping applied to each result (`parser.ts` lines 500-507). -/
def toFinding (r : SemgrepResult) : Finding :=
  { ruleId := r.check_id, file := r.path, line := r.start_line
    message := r.message, severity := r.severity, codeSnippet := r.lines }

/-- `parseFindings` (`parser.ts` lines 491-511): an unreadable file, invalid
JSON, or a missing/non-array `results` field raise an error (rethrown with
the `Failed to parse findings file` prefix); otherwise each result is mapped
1:1, in order, to a `Finding`. -/
def parseFindings (c : FileContent) : Except String (List Finding) :=
  match c with
  | FileContent.unreadable =>
    Except.error "Failed to parse findings file: file cannot be read"
  | FileContent.invalidJson =>
    Except.error "Failed to parse findings file: content is not valid JSON"
  | FileContent.json v =>
    match v.results with
    | some (ResultsField.array rs) => Except.ok (rs.map toFinding)
    | _ =>
      Except.error "Failed to parse findings file: Invalid Semgrep JSON format: results array missing."

/-- A sample enriched finding, for concrete witnesses. -/
def sampleFinding (score : Int) (msg : String) (fileName : String) : EnrichedFinding :=
  { ruleId := "rule", file := fileName, line := 1, message := msg
    severity := "ERROR", codeSnippet := none, exposureScore := score }

/-- Inserting an element is a permutation of consing it. -/
theorem insertByExposure_perm (f : EnrichedFinding) (l : List EnrichedFinding) :
    List.Perm (insertByExposure f l) (f :: l) := by
  induction l with
  | nil => simp [insertByExposure]
  | cons g gs ih =>
    rw [insertByExposure]
    split
    · exact (ih.cons g).trans (List.Perm.swap f g gs)
    · exact List.Perm.refl _

/-- The sort permutes its input. -/
theorem sortByExposureDesc_perm (l : List EnrichedFinding) :
    List.Perm (sortByExposureDesc l) l := by
  induction l with
  | nil => exact List.Perm.refl _
  | cons f fs ih => exact (insertByExposure_perm f _).trans (ih.cons f)

/-- The sort preserves length. -/
theorem length_sortByExposureDesc (l : List EnrichedFinding) :
    (sortByExposureDesc l).length = l.length :=
  (sortByExposureDesc_perm l).length_eq

/-- Inserting into a descending list keeps it descending. -/
theorem pairwise_insertByExposure (f : EnrichedFinding) (l : List EnrichedFinding)
    (h : l.Pairwise fun a b => b.exposureScore ≤ a.exposureScore) :
    (insertByExposure f l).Pairwise fun a b => b.exposureScore ≤ a.exposureScore := by
  induction l with
  | nil => simp [insertByExposure]
  | cons g gs ih =>
    rw [insertByExposure]
    rw [List.pairwise_cons] at h
    split
    · rename_i hlt
      rw [List.pairwise_cons]
      refine ⟨?_, ih h.2⟩
      intro x hx
      have hx2 : x ∈ f :: gs := (insertByExposure_perm f gs).mem_iff.mp hx
      rcases List.mem_cons.mp hx2 with rfl | hx2
      · exact le_of_lt hlt
      · exact h.1 x hx2
    · rename_i hge
      rw [List.pairwise_cons]
      refine ⟨?_, List.pairwise_cons.mpr h⟩
      intro x hx
      rcases List.mem_cons.mp hx with rfl | hx
      · exact not_lt.mp hge
      · exact le_trans (h.1 x hx) (not_lt.mp hge)

/-- The sort's output is descending in exposure score. -/
theorem pairwise_sortByExposureDesc (l : List EnrichedFinding) :
    (sortByExposureDesc l).Pairwise fun a b => b.exposureScore ≤ a.exposureScore := by
  induction l with
  | nil => simp [sortByExposureDesc]
  | cons f fs ih => exact pairwise_insertByExposure f _ ih

/-- Inserting an element at least as large as every list element conses it. -/
theorem insertByExposure_of_le (f : EnrichedFinding) (l : List EnrichedFinding)
    (h : ∀ x ∈ l, x.exposureScore ≤ f.exposureScore) : insertByExposure f l = f :: l := by
  cases l with
  | nil => rfl
  | cons g gs =>
    rw [insertByExposure, if_neg]
    exact not_lt.mpr (h g (List.mem_cons_self _ _))

/-- Sorting an already-descending list changes nothing. -/
theorem sortByExposureDesc_of_pairwise (l : List EnrichedFinding)
    (h : l.Pairwise fun a b => b.exposureScore ≤ a.exposureScore) :
    sortByExposureDesc l = l := by
  induction l with
  | nil => rfl
  | cons f fs ih =>
    rw [List.pairwise_cons] at h
    rw [sortByExposureDesc, ih h.2, insertByExposure_of_le f fs h.1]

/-- The sort is idempotent (resorting the mutated array is a no-op). -/
theorem sortByExposureDesc_idem (l : List EnrichedFinding) :
    sortByExposureDesc (sortByExposureDesc l) = sortByExposureDesc l :=
  sortByExposureDesc_of_pairwise _ (pairwise_sortByExposureDesc l)

/-- Shape of a successful remote attempt: the result is the deduplicated,
truncated merged list with the fallback flag unset, and the array was left
sorted. -/
theorem remoteAttempt_ok_shape {findings : List EnrichedFinding}
    {oracle : Nat → BatchOutcome} {res : AnalysisResult} {arr : List EnrichedFinding}
    (h : remoteAttempt findings oracle = Except.ok (res, arr)) :
    res = { topRisks := (dedupByKey ((batchRiskLists findings oracle).flatten)).take 10 } ∧
      arr = sortByExposureDesc findings := by
  simp only [remoteAttempt] at h
  split at h
  · simp at h
  · rw [Except.ok.injEq, Prod.mk.injEq] at h
    exact ⟨h.1.symm, h.2.symm⟩

/-- A failed remote attempt means the deduplicated merged list was empty. -/
theorem remoteAttempt_error_shape {findings : List EnrichedFinding}
    {oracle : Nat → BatchOutcome} {e : String}
    (h : remoteAttempt findings oracle = Except.error e) :
    dedupByKey ((batchRiskLists findings oracle).flatten) = [] := by
  simp only [remoteAttempt] at h
  split at h
  · rename_i hc
    exact List.length_eq_zero.mp hc
  · simp at h

/-- An empty deduplicated merged list makes the remote attempt throw. -/
theorem remoteAttempt_of_dedup_nil {findings : List EnrichedFinding}
    {oracle : Nat → BatchOutcome}
    (h : dedupByKey ((batchRiskLists findings oracle).flatten) = []) :
    remoteAttempt findings oracle = Except.error "No risks identified by AI" := by
  simp [remoteAttempt, h]

/-- Evaluation of the no-credential path of `prioritizeRisks`. -/
theorem prioritizeRisks_none (findings : List EnrichedFinding) (o : Nat → BatchOutcome) :
    prioritizeRisks findings ⟨none, o⟩ =
      ({ topRisks := ((sortByExposureDesc findings).take 5).map fallbackRisk
         isFallback := true }, sortByExposureDesc findings) := rfl

/-- Evaluation of `prioritizeRisks` when the remote attempt succeeds. -/
theorem prioritizeRisks_some_ok {findings : List EnrichedFinding} {k : String}
    {o : Nat → BatchOutcome} {res : AnalysisResult} {arr : List EnrichedFinding}
    (h : remoteAttempt findings o = Except.ok (res, arr)) :
    prioritizeRisks findings ⟨some k, o⟩ = (res, arr) := by
  simp [prioritizeRisks, h]

/-- Evaluation of `prioritizeRisks` when the remote attempt throws: the
caught error is answered with the fallback ranking. -/
theorem prioritizeRisks_some_error {findings : List EnrichedFinding} {k : String}
    {o : Nat → BatchOutcome} {e : String}
    (h : remoteAttempt findings o = Except.error e) :
    prioritizeRisks findings ⟨some k, o⟩ =
      ({ topRisks := ((sortByExposureDesc findings).take 5).map fallbackRisk
         isFallback := true }, sortByExposureDesc findings) := by
  simp [prioritizeRisks, h, fallbackRanking, sortByExposureDesc_idem]

/-- Indexing into the mapped enumeration of the batches. -/
theorem enumFromMap_getElem (o : Nat → BatchOutcome) :
    ∀ (bs : List (List EnrichedFinding)) (i j : Nat),
      ((bs.enumFrom i).map fun p => processBatch p.2 (o p.1))[j]? =
        bs[j]?.map fun b => processBatch b (o (i + j))
  | [], _, _ => by simp
  | b :: bs, i, 0 => by simp [List.enumFrom]
  | b :: bs, i, j + 1 => by
    simp only [List.enumFrom, List.map_cons, List.getElem?_cons_succ]
    rw [enumFromMap_getElem o bs (i + 1) j]
    have : i + 1 + j = i + (j + 1) := by omega
    rw [this]

/-- The `j`-th partial risk list is the `j`-th batch processed with the
`j`-th outcome; it depends on no other batch's outcome. -/
theorem batchRiskLists_getElem (findings : List EnrichedFinding)
    (o : Nat → BatchOutcome) (j : Nat) :
    (batchRiskLists findings o)[j]? =
      (chunks20 ((sortByExposureDesc findings).take 60))[j]?.map
        fun b => processBatch b (o j) := by
  simp only [batchRiskLists, List.enum]
  rw [enumFromMap_getElem]
  simp

/-- Keep-first deduplication yields a sublist. -/
theorem dedupByKeyAux_sublist :
    ∀ (l : List RiskAnalysis) (seen : List (String × Option String)),
      (dedupByKeyAux seen l).Sublist l
  | [], _ => List.Sublist.refl _
  | r :: rs, seen => by
    rw [dedupByKeyAux]
    split
    · exact (dedupByKeyAux_sublist rs seen).cons r
    · exact (dedupByKeyAux_sublist rs _).cons₂ r

/-- The keys of the deduplicated list are distinct and avoid `seen`. -/
theorem dedupByKeyAux_keys :
    ∀ (l : List RiskAnalysis) (seen : List (String × Option String)),
      ((dedupByKeyAux seen l).map riskKey).Nodup ∧
        ∀ s ∈ dedupByKeyAux seen l, riskKey s ∉ seen
  | [], _ => ⟨List.nodup_nil, by simp [dedupByKeyAux]⟩
  | r :: rs, seen => by
    rw [dedupByKeyAux]
    split
    · exact dedupByKeyAux_keys rs seen
    · rename_i hns
      obtain ⟨ih1, ih2⟩ := dedupByKeyAux_keys rs (riskKey r :: seen)
      constructor
      · rw [List.map_cons, List.nodup_cons]
        refine ⟨?_, ih1⟩
        intro hmem
        rw [List.mem_map] at hmem
        obtain ⟨s, hs, hks⟩ := hmem
        exact ih2 s hs (by rw [hks]; exact List.mem_cons_self _ _)
      · intro s hs
        rw [List.mem_cons] at hs
        rcases hs with rfl | hs
        · exact hns
        · exact fun hseen => ih2 s hs (List.mem_cons_of_mem _ hseen)

/-- Every key of the input either was already seen or survives into the
deduplicated list. -/
theorem dedupByKeyAux_covers :
    ∀ (l : List RiskAnalysis) (seen : List (String × Option String)) (r : RiskAnalysis),
      r ∈ l → riskKey r ∈ seen ∨ ∃ s ∈ dedupByKeyAux seen l, riskKey s = riskKey r
  | [], _, _, h => absurd h (List.not_mem_nil _)
  | x :: rs, seen, r, h => by
    rw [dedupByKeyAux]
    rw [List.mem_cons] at h
    split
    · rename_i hx
      rcases h with rfl | h
      · exact Or.inl hx
      · exact dedupByKeyAux_covers rs seen r h
    · rcases h with rfl | h
      · exact Or.inr ⟨r, List.mem_cons_self _ _, rfl⟩
      · rcases dedupByKeyAux_covers rs (riskKey x :: seen) r h with hin | ⟨s, hs, hk⟩
        · rw [List.mem_cons] at hin
          rcases hin with heq | hin
          · exact Or.inr ⟨x, List.mem_cons_self _ _, heq.symm⟩
          · exact Or.inl hin
        · exact Or.inr ⟨s, List.mem_cons_of_mem _ hs, hk⟩

/-- Every survivor of keep-first deduplication is the first element of the
input carrying its key. -/
theorem dedupByKeyAux_find :
    ∀ (l : List RiskAnalysis) (seen : List (String × Option String)) (s : RiskAnalysis),
      s ∈ dedupByKeyAux seen l →
      riskKey s ∉ seen ∧
        l.find? (fun x => decide (riskKey x = riskKey s)) = some s
  | [], _, s, h => absurd h (List.not_mem_nil _)
  | r :: rs, seen, s, h => by
    rw [dedupByKeyAux] at h
    split at h
    · rename_i hr
      obtain ⟨h1, h2⟩ := dedupByKeyAux_find rs seen s h
      refine ⟨h1, ?_⟩
      have hne : riskKey r ≠ riskKey s := fun he => h1 (he ▸ hr)
      rw [List.find?_cons_of_neg _ (by simp [hne]), h2]
    · rename_i hr
      rw [List.mem_cons] at h
      rcases h with rfl | h
      · exact ⟨hr, List.find?_cons_of_pos _ (by simp)⟩
      · obtain ⟨h1, h2⟩ := dedupByKeyAux_find rs (riskKey r :: seen) s h
        rw [List.mem_cons, not_or] at h1
        refine ⟨h1.2, ?_⟩
        rw [List.find?_cons_of_neg _ (by simp [Ne.symm h1.1]), h2]

/-- A sample raw risk of a remote response, for concrete witnesses. -/
def sampleRaw : RawRisk :=
  { title := "T", reason := "R", impact := "I", fix := "F"
    confidence := "High", originalId := 0 }

/-- A sample parsed remote response, for concrete witnesses. -/
def sampleResp : LLMResponse := { risks := some [sampleRaw], topRisks := none }

/-- C1: for every non-empty finding sequence, when no external-API
credential is configured, `prioritizeRisks` attempts no remote call (its
result is the same under every batch oracle) and returns a result with the
fallback flag true whose `topRisks` are exactly the first `min 5 N` entries
of the findings stably sorted descending by exposure score, one templated
risk per finding, each with confidence fixed at Medium. -/
theorem C1_fallback_no_credential (findings : List EnrichedFinding)
    (_hne : findings ≠ []) (o : Nat → BatchOutcome) :
    ((prioritizeRisks findings ⟨none, o⟩).1.isFallback = true) ∧
    ((prioritizeRisks findings ⟨none, o⟩).1.topRisks =
      ((sortByExposureDesc findings).take 5).map fallbackRisk) ∧
    ((prioritizeRisks findings ⟨none, o⟩).1.topRisks.length = min 5 findings.length) ∧
    (∀ r ∈ (prioritizeRisks findings ⟨none, o⟩).1.topRisks, r.confidence = "Medium") ∧
    (∀ o2 : Nat → BatchOutcome,
      prioritizeRisks findings ⟨none, o2⟩ = prioritizeRisks findings ⟨none, o⟩) ∧
    ((sortByExposureDesc findings).Pairwise fun a b => b.exposureScore ≤ a.exposureScore) := by
  refine ⟨rfl, rfl, ?_, ?_, fun _ => rfl, pairwise_sortByExposureDesc findings⟩
  · rw [prioritizeRisks_none]
    simp only [List.length_map, List.length_take, length_sortByExposureDesc]
  · intro r hr
    rw [prioritizeRisks_none] at hr
    simp only [List.mem_map] at hr
    obtain ⟨f, _, rfl⟩ := hr
    rfl

/-- C1 witness: a concrete one-element run of the no-credential path. -/
theorem C1_fallback_no_credential_witness :
    ([sampleFinding 1 "m" "a"] : List EnrichedFinding) ≠ [] ∧
    (prioritizeRisks [sampleFinding 1 "m" "a"]
        ⟨none, fun _ => BatchOutcome.failure⟩).1.topRisks.length =
      min 5 ([sampleFinding 1 "m" "a"] : List EnrichedFinding).length :=
  ⟨by decide,
    (C1_fallback_no_credential [sampleFinding 1 "m" "a"] (by decide)
      (fun _ => BatchOutcome.failure)).2.2.1⟩

/-- C3: the result's fallback flag is true on the fallback paths (no
credential, or caught remote error) and false on the successful
remote-merge path. -/
theorem C3_fallback_flag (findings : List EnrichedFinding) (k : String)
    (o : Nat → BatchOutcome) :
    ((prioritizeRisks findings ⟨none, o⟩).1.isFallback = true) ∧
    (∀ res arr, remoteAttempt findings o = Except.ok (res, arr) →
      prioritizeRisks findings ⟨some k, o⟩ = (res, arr) ∧ res.isFallback = false) ∧
    (∀ e, remoteAttempt findings o = Except.error e →
      (prioritizeRisks findings ⟨some k, o⟩).1.isFallback = true) := by
  refine ⟨rfl, ?_, ?_⟩
  · intro res arr h
    refine ⟨prioritizeRisks_some_ok h, ?_⟩
    rw [(remoteAttempt_ok_shape h).1]
  · intro e h
    rw [prioritizeRisks_some_error h]

/-- C3 witness: a concrete successful remote run returns the flag false. -/
theorem C3_fallback_flag_witness :
    (prioritizeRisks [sampleFinding 1 "m" "a"]
        ⟨some "k", fun _ => BatchOutcome.success sampleResp⟩).1.isFallback = false := by
  have h := (C3_fallback_flag [sampleFinding 1 "m" "a"] "k"
      (fun _ => BatchOutcome.success sampleResp)).2.1
      { topRisks := [{ title := "T", reason := "R", impact := "I", fix := "F"
                       confidence := "High"
                       originalFinding := some (sampleFinding 1 "m" "a") }] }
      [sampleFinding 1 "m" "a"] rfl
  rw [h.1]

/-- C4 counterexample: `prioritizeRisks` does not leave the caller's array
in its original order — the in-place sort of `ai.ts` lines 6 and 37 reorders
it (here on the no-credential path with a two-element unsorted input). -/
theorem C4_in_place_sort_counterexample :
    (prioritizeRisks [sampleFinding 1 "low" "a", sampleFinding 2 "high" "b"]
        ⟨none, fun _ => BatchOutcome.failure⟩).2 ≠
      [sampleFinding 1 "low" "a", sampleFinding 2 "high" "b"] := by
  decide

/-- C4 amended: on every path, `prioritizeRisks` leaves the caller's array
holding the same elements but stably sorted descending by exposure score —
a permutation of the input, not necessarily the original order. -/
theorem C4_amended_permutes (findings : List EnrichedFinding) (env : Env) :
    (prioritizeRisks findings env).2 = sortByExposureDesc findings ∧
    List.Perm (prioritizeRisks findings env).2 findings := by
  have harr : (prioritizeRisks findings env).2 = sortByExposureDesc findings := by
    obtain ⟨key, o⟩ := env
    cases key with
    | none => rfl
    | some k =>
      cases hra : remoteAttempt findings o with
      | ok res =>
        obtain ⟨r, arr⟩ := res
        rw [prioritizeRisks_some_ok hra]
        exact (remoteAttempt_ok_shape hra).2
      | error e =>
        rw [prioritizeRisks_some_error hra]
  exact ⟨harr, harr ▸ sortByExposureDesc_perm findings⟩

/-- C5: on every input and every combination of remote outcomes, the
returned `topRisks` has length at most 10 (at most 5 on the fallback paths,
the top-10 truncation on the remote path). -/
theorem C5_topRisks_le_ten (findings : List EnrichedFinding) (env : Env) :
    (prioritizeRisks findings env).1.topRisks.length ≤ 10 := by
  obtain ⟨key, o⟩ := env
  cases key with
  | none =>
    rw [prioritizeRisks_none]
    simp only [List.length_map, List.length_take]
    omega
  | some k =>
    cases hra : remoteAttempt findings o with
    | ok res =>
      obtain ⟨r, arr⟩ := res
      rw [prioritizeRisks_some_ok hra, (remoteAttempt_ok_shape hra).1]
      simp only [List.length_take]
      omega
    | error e =>
      rw [prioritizeRisks_some_error hra]
      simp only [List.length_map, List.length_take]
      omega

/-- C7: with a credential configured, when the deduplicated merged remote
risk list is empty (e.g. every batch failed), `prioritizeRisks` returns
exactly the deterministic fallback result over the full finding sequence
with the fallback flag true. -/
theorem C7_empty_merge_fallback (findings : List EnrichedFinding) (k : String)
    (o : Nat → BatchOutcome)
    (h : dedupByKey ((batchRiskLists findings o).flatten) = []) :
    prioritizeRisks findings ⟨some k, o⟩ =
      ({ (fallbackRanking findings).1 with isFallback := true },
        (fallbackRanking findings).2) := by
  rw [prioritizeRisks_some_error (remoteAttempt_of_dedup_nil h)]
  rfl

/-- C7 witness: a concrete run where the only batch fails. -/
theorem C7_empty_merge_fallback_witness :
    dedupByKey
        ((batchRiskLists [sampleFinding 1 "m" "a"] fun _ => BatchOutcome.failure).flatten) =
      [] ∧
    prioritizeRisks [sampleFinding 1 "m" "a"] ⟨some "k", fun _ => BatchOutcome.failure⟩ =
      ({ (fallbackRanking [sampleFinding 1 "m" "a"]).1 with isFallback := true },
        (fallbackRanking [sampleFinding 1 "m" "a"]).2) :=
  ⟨rfl, C7_empty_merge_fallback [sampleFinding 1 "m" "a"] "k"
    (fun _ => BatchOutcome.failure) rfl⟩

/-- C2: batch error handling: a thrown or contentless batch contributes an
empty partial list; the `j`-th partial list depends only on the `j`-th
batch's outcome (sibling batches are unaffected); and with a credential the
call always returns an `AnalysisResult` — a successful remote attempt is
returned as-is, a thrown remote error is absorbed into the fallback result
rather than propagated. -/
theorem C2_error_isolation (findings : List EnrichedFinding) (k : String)
    (o : Nat → BatchOutcome) :
    (∀ batch, processBatch batch BatchOutcome.failure = [] ∧
      processBatch batch BatchOutcome.noContent = []) ∧
    (∀ (o2 : Nat → BatchOutcome) (j : Nat), o j = o2 j →
      (batchRiskLists findings o)[j]? = (batchRiskLists findings o2)[j]?) ∧
    ((∃ res arr, remoteAttempt findings o = Except.ok (res, arr) ∧
        prioritizeRisks findings ⟨some k, o⟩ = (res, arr)) ∨
      (∃ e, remoteAttempt findings o = Except.error e ∧
        (prioritizeRisks findings ⟨some k, o⟩).1.isFallback = true ∧
        (prioritizeRisks findings ⟨some k, o⟩).1.topRisks =
          ((sortByExposureDesc findings).take 5).map fallbackRisk)) := by
  refine ⟨fun batch => ⟨rfl, rfl⟩, ?_, ?_⟩
  · intro o2 j hj
    rw [batchRiskLists_getElem, batchRiskLists_getElem, hj]
  · cases hra : remoteAttempt findings o with
    | ok res =>
      obtain ⟨r, arr⟩ := res
      exact Or.inl ⟨r, arr, rfl, prioritizeRisks_some_ok hra⟩
    | error e =>
      refine Or.inr ⟨e, rfl, ?_, ?_⟩
      · rw [prioritizeRisks_some_error hra]
      · rw [prioritizeRisks_some_error hra]

/-- C2 witness: a concrete failing batch and a concrete sibling check. -/
theorem C2_error_isolation_witness :
    processBatch [sampleFinding 1 "m" "a"] BatchOutcome.failure = [] ∧
    (batchRiskLists [sampleFinding 1 "m" "a"] fun _ => BatchOutcome.failure)[0]? =
      (batchRiskLists [sampleFinding 1 "m" "a"] fun _ => BatchOutcome.failure)[0]? := by
  have h := C2_error_isolation [sampleFinding 1 "m" "a"] "k" fun _ => BatchOutcome.failure
  exact ⟨(h.1 [sampleFinding 1 "m" "a"]).1,
    h.2.1 (fun _ => BatchOutcome.failure) 0 rfl⟩

/-- C6: the merge step deduplicates the concatenated partial risk lists by
the (title, originating file) key keeping the first occurrence: the
deduplicated list has pairwise-distinct keys, is an in-order sublist of the
concatenation, represents every key of the concatenation, and each survivor
is the first element of the concatenation carrying its key — so two batches
that independently report a risk with identical (title, file) yield a single
merged entry; a successful remote attempt returns exactly this deduplicated
list truncated to 10. -/
theorem C6_dedup_by_title_file (l : List RiskAnalysis)
    (findings : List EnrichedFinding) (o : Nat → BatchOutcome) :
    ((dedupByKey l).map riskKey).Nodup ∧
    (dedupByKey l).Sublist l ∧
    (∀ r ∈ l, ∃ s ∈ dedupByKey l, riskKey s = riskKey r) ∧
    (∀ s ∈ dedupByKey l,
      l.find? (fun x => decide (riskKey x = riskKey s)) = some s) ∧
    (∀ res arr, remoteAttempt findings o = Except.ok (res, arr) →
      res.topRisks = (dedupByKey ((batchRiskLists findings o).flatten)).take 10) := by
  refine ⟨(dedupByKeyAux_keys l []).1, dedupByKeyAux_sublist l [], ?_, ?_, ?_⟩
  · intro r hr
    rcases dedupByKeyAux_covers l [] r hr with hin | hex
    · exact absurd hin (List.not_mem_nil _)
    · exact hex
  · intro s hs
    exact (dedupByKeyAux_find l [] s hs).2
  · intro res arr h
    rw [(remoteAttempt_ok_shape h).1]

/-- C6 witness: two risks with the same (title, file) key collapse into the
first one. -/
theorem C6_dedup_by_title_file_witness :
    (∃ s ∈ dedupByKey [fallbackRisk (sampleFinding 1 "m" "a"),
        fallbackRisk (sampleFinding 2 "m" "a")],
      riskKey s = riskKey (fallbackRisk (sampleFinding 2 "m" "a"))) ∧
    dedupByKey [fallbackRisk (sampleFinding 1 "m" "a"),
        fallbackRisk (sampleFinding 2 "m" "a")] =
      [fallbackRisk (sampleFinding 1 "m" "a")] :=
  ⟨(C6_dedup_by_title_file [fallbackRisk (sampleFinding 1 "m" "a"),
        fallbackRisk (sampleFinding 2 "m" "a")] [] (fun _ => BatchOutcome.failure)).2.2.1
      (fallbackRisk (sampleFinding 2 "m" "a")) (by decide),
    by decide⟩

/-- A sample scanner result, for concrete witnesses. -/
def sampleSemgrep : SemgrepResult :=
  { check_id := "c", path := "p", start_line := 3, message := "m"
    severity := "WARNING", lines := "x" }

/-- C8: the parser maps a well-formed `results` array 1:1 and in order to
findings (`check_id` to `ruleId`, `path` to `file`, `start.line` to `line`,
and `extra.message`/`severity`/`lines` to `message`/`severity`/
`codeSnippet`); an unreadable file, invalid JSON, or a missing or non-array
`results` field each yield a parse error. -/
theorem C8_parseFindings (rs : List SemgrepResult) (v : SemgrepOutput) :
    (parseFindings (FileContent.json { results := some (ResultsField.array rs) }) =
      Except.ok (rs.map toFinding)) ∧
    ((rs.map toFinding).length = rs.length) ∧
    (∀ i : Nat, (rs.map toFinding)[i]? = rs[i]?.map toFinding) ∧
    (∀ r : SemgrepResult, (toFinding r).ruleId = r.check_id ∧
      (toFinding r).file = r.path ∧ (toFinding r).line = r.start_line ∧
      (toFinding r).message = r.message ∧ (toFinding r).severity = r.severity ∧
      (toFinding r).codeSnippet = r.lines) ∧
    (∃ e, parseFindings FileContent.unreadable = Except.error e) ∧
    (∃ e, parseFindings FileContent.invalidJson = Except.error e) ∧
    (v.results = none ∨ v.results = some ResultsField.nonArray →
      ∃ e, parseFindings (FileContent.json v) = Except.error e) := by
  refine ⟨rfl, by simp, fun i => by simp, fun r => ⟨rfl, rfl, rfl, rfl, rfl, rfl⟩,
    ⟨_, rfl⟩, ⟨_, rfl⟩, ?_⟩
  intro h
  refine ⟨"Failed to parse findings file: Invalid Semgrep JSON format: results array missing.", ?_⟩
  rcases h with h | h <;> simp [parseFindings, h]

/-- C8 witness: a concrete one-result file parses, a concrete file without
`results` fails. -/
theorem C8_parseFindings_witness :
    (parseFindings (FileContent.json { results := some (ResultsField.array [sampleSemgrep]) }) =
      Except.ok ([sampleSemgrep].map toFinding)) ∧
    (∃ e, parseFindings (FileContent.json { results := none }) = Except.error e) :=
  ⟨(C8_parseFindings [sampleSemgrep] ⟨none⟩).1,
    (C8_parseFindings [sampleSemgrep] ⟨none⟩).2.2.2.2.2.2 (Or.inl rfl)⟩

/-- A remote response whose confidence string lies outside
High/Medium/Low, for the C9 counterexample. -/
def badResp : LLMResponse :=
  { risks := some [{ title := "T", reason := "R", impact := "I", fix := "F"
                     confidence := "Certain", originalId := 0 }]
    topRisks := none }

/-- C9 counterexample: the remote path copies the response's confidence
string without validating it, so a returned risk can carry a confidence
outside High/Medium/Low. -/
theorem C9_confidence_counterexample :
    ((prioritizeRisks [sampleFinding 1 "m" "a"]
        ⟨some "k", fun _ => BatchOutcome.success badResp⟩).1.topRisks.map
      fun r => r.confidence) = ["Certain"] ∧
    ¬ ("Certain" = "High" ∨ "Certain" = "Medium" ∨ "Certain" = "Low") :=
  ⟨rfl, by decide⟩

/-- C9 amended: every risk produced on a fallback path (no credential, or a
caught remote error) has confidence "Medium", hence in High/Medium/Low; on
the successful remote path each returned risk's confidence is copied
verbatim from some batch response and is not validated against that set. -/
theorem C9_amended_confidence (findings : List EnrichedFinding) (env : Env) :
    ((env.apiKey = none ∨ ∃ e, remoteAttempt findings env.batchOutcome = Except.error e) →
      ∀ r ∈ (prioritizeRisks findings env).1.topRisks, r.confidence = "Medium") ∧
    (∀ res arr, remoteAttempt findings env.batchOutcome = Except.ok (res, arr) →
      ∀ r ∈ res.topRisks, ∃ i resp raw,
        env.batchOutcome i = BatchOutcome.success resp ∧ raw ∈ extractRisks resp ∧
        r.confidence = raw.confidence) := by
  obtain ⟨key, o⟩ := env
  constructor
  · intro h r hr
    have hfall : (prioritizeRisks findings ⟨key, o⟩).1.topRisks =
        ((sortByExposureDesc findings).take 5).map fallbackRisk := by
      cases key with
      | none => rw [prioritizeRisks_none]
      | some k =>
        rcases h with h | ⟨e, hra⟩
        · exact absurd h (by simp)
        · rw [prioritizeRisks_some_error hra]
    rw [hfall] at hr
    simp only [List.mem_map] at hr
    obtain ⟨f, _, rfl⟩ := hr
    rfl
  · intro res arr h r hr
    rw [(remoteAttempt_ok_shape h).1] at hr
    have hr2 : r ∈ dedupByKey ((batchRiskLists findings o).flatten) :=
      List.take_subset _ _ hr
    have hr3 : r ∈ (batchRiskLists findings o).flatten :=
      (dedupByKeyAux_sublist _ []).subset hr2
    rw [List.mem_flatten] at hr3
    obtain ⟨part, hpart, hrp⟩ := hr3
    simp only [batchRiskLists, List.mem_map] at hpart
    obtain ⟨p, _, hpeq⟩ := hpart
    subst hpeq
    cases hout : o p.1 with
    | failure => rw [hout] at hrp; exact absurd hrp (List.not_mem_nil _)
    | noContent => rw [hout] at hrp; exact absurd hrp (List.not_mem_nil _)
    | success resp =>
      rw [hout] at hrp
      simp only [processBatch, List.mem_map] at hrp
      obtain ⟨raw, hraw, hreq⟩ := hrp
      exact ⟨p.1, resp, raw, hout, hraw, by rw [← hreq]⟩

/-- C9 amended witness: a concrete fallback risk has confidence Medium. -/
theorem C9_amended_confidence_witness :
    (fallbackRisk (sampleFinding 1 "m" "a")).confidence = "Medium" :=
  (C9_amended_confidence [sampleFinding 1 "m" "a"]
      ⟨none, fun _ => BatchOutcome.failure⟩).1
    (Or.inl rfl) (fallbackRisk (sampleFinding 1 "m" "a")) (by decide)

/-- C10: the response handler accepts the risk array under either the
`risks` key or the legacy `topRisks` key, and an `originalId` that is not a
valid batch index is answered with the batch's first element, so every risk
built from a non-empty batch has an originating finding. -/
theorem C10_original_id_substitution (batch : List EnrichedFinding)
    (hb : batch ≠ []) (l : List RawRisk) (t : Option (List RawRisk)) (id : Int)
    (out : BatchOutcome) :
    (extractRisks { risks := some l, topRisks := t } = l) ∧
    (extractRisks { risks := none, topRisks := some l } = l) ∧
    ((lookupOriginal batch id).isSome = true) ∧
    (¬ (0 ≤ id ∧ id.toNat < batch.length) → lookupOriginal batch id = batch.head?) ∧
    (∀ risk ∈ processBatch batch out, risk.originalFinding.isSome = true) := by
  have hsome : ∀ i : Int, (lookupOriginal batch i).isSome = true := by
    intro i
    rw [lookupOriginal]
    split
    · rfl
    · cases batch with
      | nil => exact absurd rfl hb
      | cons b bs => rfl
  refine ⟨rfl, rfl, hsome id, ?_, ?_⟩
  · intro h
    rw [lookupOriginal, dif_neg h]
  · intro risk hrisk
    cases out with
    | failure => exact absurd hrisk (List.not_mem_nil _)
    | noContent => exact absurd hrisk (List.not_mem_nil _)
    | success resp =>
      simp only [processBatch, List.mem_map] at hrisk
      obtain ⟨raw, _, rfl⟩ := hrisk
      exact hsome raw.originalId

/-- C10 witness: a concrete out-of-range `originalId` resolves to the
batch's first element. -/
theorem C10_original_id_substitution_witness :
    (extractRisks { risks := some [sampleRaw], topRisks := none } = [sampleRaw]) ∧
    (lookupOriginal [sampleFinding 1 "m" "a"] 7).isSome = true ∧
    lookupOriginal [sampleFinding 1 "m" "a"] 7 = [sampleFinding 1 "m" "a"].head? := by
  have h := C10_original_id_substitution [sampleFinding 1 "m" "a"] (by decide)
      [sampleRaw] none 7 BatchOutcome.failure
  exact ⟨h.1, h.2.2.1, h.2.2.2.1 (by decide)⟩

end Riskboard
